import Mathlib

/-!
Verification of the pitch-detection / pitch-class-codec / exercise-matching
pipeline of the piano-tutor web application.  The JavaScript sources are
embedded shallowly: the stringly-typed pitch classes of the source stay
strings, machine numbers become exact rationals (timestamps, clarity) or
reals (frequencies), the JavaScript `%` operator becomes `Int.tmod`, and the
per-callback mutable state of each exercise page becomes an explicit state
record folded over the incoming events.
-/

namespace PianoTutor

/-! ## common.js : the pitch-class codec -/

/-- The canonical pitch-class table (common.js `NOTE_NAMES`): the twelve
sharp-spelled pitch classes in semitone order from C. -/
def NOTE_NAMES : List String :=
  ["C", "C#", "D", "D#", "E", ("F" : String),
   "F#", "G", ("G#" : String), "A", "A#", "B"]

/-- JavaScript `Array.prototype.indexOf`: the index of the first occurrence,
`-1` when the element is absent. -/
def jsIndexOf (l : List String) (x : String) : Int :=
  match l.indexOf? x with
  | some i => (i : Int)
  | none => -1

/-- The JavaScript `%` operator on integers: remainder truncated toward zero
(`Int.tmod`). -/
def jsRem (a b : Int) : Int := Int.tmod a b

/-- The idiom `((m % 12) + 12) % 12` used throughout the source to turn a
(possibly negative) JavaScript remainder into an index in `0..11`. -/
def jsMod12 (m : Int) : Int := jsRem (jsRem m 12 + 12) 12

/-- The MIDI number common.js computes in `pitchClassToFreq`
(`semitone + (octave + 1) * 12`, with C-1 = 0, C4 = 60, A4 = 69). -/
def noteMidi (pc : String) (octave : Int) : Int :=
  jsIndexOf NOTE_NAMES pc + (octave + 1) * 12

/-- common.js `freqToPitchClass`: `null` for a non-positive frequency,
otherwise round to the nearest MIDI number and reduce modulo 12 into
`NOTE_NAMES` (`NOTE_NAMES[index] || null`). -/
noncomputable def freqToPitchClass (freq : ℝ) : Option String :=
  if freq ≤ 0 then none
  else
    let midi : Int := round (12 * Real.logb 2 (freq / 440) + 69)
    let index : Int := jsMod12 midi
    if index < 0 then none else NOTE_NAMES.get? index.toNat

/-- common.js `pitchClassToFreq`: `none` models the thrown
`Unknown pitch class` error; otherwise `440 * 2 ^ ((midi - 69) / 12)`. -/
noncomputable def pitchClassToFreq (pc : String) (octave : Int) : Option ℝ :=
  let semitone := jsIndexOf NOTE_NAMES pc
  if semitone < 0 then none
  else some (440 * (2 : ℝ) ^ (((noteMidi pc octave : ℝ) - 69) / 12))

/-- A parsed note name (`{ pc, octave }` from common.js `parseNoteName`). -/
structure ParsedNote where
  pc : String
  octave : Int
deriving DecidableEq, Repr

/-- The regex character class `[A-Ga-g]` of common.js `parseNoteName`. -/
def isNoteLetter (c : Char) : Bool :=
  (decide ('A' ≤ c) && decide (c ≤ 'G')) || (decide ('a' ≤ c) && decide (c ≤ 'g'))

/-- The numeric value of a run of decimal digits (the digits matched by
`-?\d+` and read back by `parseInt(octave, 10)`). -/
def digitsToNat (ds : List Char) : Nat :=
  ds.foldl (fun n c => 10 * n + (c.toNat - 48)) 0

/-- The octave part of the note-name regex, `-?\d+`, together with the
`parseInt(octave, 10)` conversion. `none` when the characters are not an
optionally-negated nonempty digit run. -/
def parseOctaveChars (cs : List Char) : Option Int :=
  if cs.head? == some '-' then
    if !cs.tail.isEmpty && cs.tail.all Char.isDigit
    then some (-(digitsToNat cs.tail : Int)) else none
  else
    if !cs.isEmpty && cs.all Char.isDigit
    then some ((digitsToNat cs : Int)) else none

/-- common.js `parseNoteName`, flat branch: move one semitone down in
`NOTE_NAMES` and wrap around (`(idx + 11) % 12`). The `getD` default is
unreachable: the wrapped index is always in range. -/
def flatToSharp (letter : String) : String :=
  let idx := jsIndexOf NOTE_NAMES letter
  let newIdx := jsRem (idx + 11) 12
  (NOTE_NAMES.get? newIdx.toNat).getD letter

/-- JavaScript `String.prototype.trim`: strip whitespace from both ends. -/
def trimChars (cs : List Char) : List Char :=
  ((cs.dropWhile Char.isWhitespace).reverse.dropWhile Char.isWhitespace).reverse

/-- common.js `parseNoteName` on the trimmed characters: the regex
`^([A-Ga-g])([#b]?)(-?\d+)$`, upper-casing of the letter, `#` appended for a
sharp, and the flat-to-enharmonic-sharp normalization. -/
def parseNoteNameChars : List Char → Option ParsedNote
  | [] => none
  | c :: rest =>
      if isNoteLetter c then
        let letter := String.mk [c.toUpper]
        if rest.head? == some '#' then
          (parseOctaveChars rest.tail).map (fun o => ⟨letter ++ "#", o⟩)
        else if rest.head? == some 'b' then
          (parseOctaveChars rest.tail).map (fun o => ⟨flatToSharp letter, o⟩)
        else
          (parseOctaveChars rest).map (fun o => ⟨letter, o⟩)
      else none

/-- common.js `parseNoteName` (`none` models the thrown
`Invalid note name` error). -/
def parseNoteName (name : String) : Option ParsedNote :=
  parseNoteNameChars (trimChars name.toList)

/-- The spec's octave shape, `-?\d+`: an optional minus sign followed by a
nonempty run of decimal digits. -/
def isOctaveChars (cs : List Char) : Bool :=
  if cs.head? == some '-' then !cs.tail.isEmpty && cs.tail.all Char.isDigit
  else !cs.isEmpty && cs.all Char.isDigit

/-- The note-name shape as the spec words it: a letter A-G
(case-insensitive), an optional `#` or `b` accidental, and a signed integer
octave. -/
def specNoteNameShape (cs : List Char) : Bool :=
  match cs with
  | [] => false
  | c :: rest =>
      isNoteLetter c &&
        (isOctaveChars rest ||
          ((rest.head? == some '#' || rest.head? == some 'b')
            && isOctaveChars rest.tail))

/-- common.js `intervalNameFromSemitone`: the fixed Polish lookup table for
0-11, with the numeric fallback label for anything else. -/
def intervalNameFromSemitone (semitones : Int) : String :=
  if semitones = 0 then "pryma czysta"
  else if semitones = 1 then "sekunda mała"
  else if semitones = 2 then "sekunda wielka"
  else if semitones = 3 then "tercja mała"
  else if semitones = 4 then "tercja wielka"
  else if semitones = 5 then "kwarta czysta"
  else if semitones = 6 then "tryton"
  else if semitones = 7 then "kwinta czysta"
  else if semitones = 8 then "seksta mała"
  else if semitones = 9 then "seksta wielka"
  else if semitones = 10 then "septyma mała"
  else if semitones = 11 then "septyma wielka"
  else toString semitones ++ " półtonów"

/-! ## noteDetector.js : NoteDetector -/

/-- The per-instance mutable state of a `NoteDetector` that the
`onaudioprocess` handler reads and writes: the constructor initialises
`lastDetectTime` to `0`. -/
structure DetectorState where
  lastDetectTime : ℚ
deriving DecidableEq, Repr

/-- `NoteDetector` state as built by the constructor. -/
def detectorInit : DetectorState := ⟨0⟩

/-- One output of the pitch estimator for one audio buffer, together with the
`performance.now()` timestamp at which the `onaudioprocess` handler runs. -/
structure AudioFrame where
  now : ℚ
  pitch : ℚ
  clarity : ℚ
deriving DecidableEq, Repr

/-- The `onaudioprocess` handler of noteDetector.js (lines 78-99): if
`pitch` is truthy and `clarity >= clarityThreshold` and strictly more than
250 ms passed since `lastDetectTime`, record the time and invoke
`onFrequency(pitch)`; otherwise emit nothing. Returns the new state and the
frequency passed to the callback, if any. -/
def onAudioProcess (clarityThreshold : ℚ) (st : DetectorState) (f : AudioFrame) :
    DetectorState × Option ℚ :=
  if f.pitch ≠ 0 ∧ clarityThreshold ≤ f.clarity then
    if 250 < f.now - st.lastDetectTime then (⟨f.now⟩, some f.pitch) else (st, none)
  else (st, none)

/-- The frequencies `onFrequency` receives over a sequence of audio frames. -/
def detectorEmits (clarityThreshold : ℚ) (st : DetectorState) :
    List AudioFrame → List ℚ
  | [] => []
  | f :: fs =>
      match onAudioProcess clarityThreshold st f with
      | (st1, some p) => p :: detectorEmits clarityThreshold st1 fs
      | (st1, none) => detectorEmits clarityThreshold st1 fs

/-- The spec's emission condition for the note-event stream, word for word:
clarity at least the threshold, resolved pitch non-null, and *at least*
`debounceIntervalMs` (250 ms) elapsed since the last emitted event. -/
def specEmitCondition (clarityThreshold lastEmitTime : ℚ) (f : AudioFrame) : Prop :=
  f.pitch ≠ 0 ∧ clarityThreshold ≤ f.clarity ∧ 250 ≤ f.now - lastEmitTime

/-- The microphone-unavailable error the spec requires `start()` to report. -/
inductive AudioError where
  | audioUnavailable
deriving DecidableEq, Repr

/-- What `NoteDetector.start()` leaves behind for its caller. -/
structure StartResult where
  errorToCaller : Option AudioError
  listening : Bool
  alertShown : Bool
deriving DecidableEq, Repr

/-- noteDetector.js `start()` (lines 55-100), at the granularity of the
microphone request: when `getUserMedia` rejects, the rejection is caught,
`alert(...)` is shown and `start()` returns normally (lines 62-68), so no
error ever reaches the caller; when it resolves, the processing chain is
connected and the detector listens. -/
def noteDetectorStart (micAvailable : Bool) : StartResult :=
  if micAvailable then ⟨none, true, false⟩ else ⟨none, false, true⟩

/-- `start()` as the spec words it: microphone failure is reported to the
caller as an `AudioUnavailableError`. -/
def specStart (micAvailable : Bool) : StartResult :=
  if micAvailable then ⟨none, true, false⟩
  else ⟨some AudioError.audioUnavailable, false, false⟩

/-! ## The exercise matchers -/

/-- The terminal/non-terminal state an exercise's status display is in
(`collecting` while listening, the `result-success` / `result-failure`
classes otherwise). -/
inductive Verdict where
  | collecting
  | success
  | failure
deriving DecidableEq, Repr

/-- A note event delivered to an exercise's `onFrequency` callback:
`pc = freqToPitchClass(freq)` (already resolved; `none` for a null pitch
class) and the `performance.now()` timestamp of the callback. -/
structure NoteEvent where
  now : ℚ
  pc : Option String
deriving DecidableEq, Repr

/-- `'★'.repeat(stars)`. -/
def starRepeat (n : Nat) : String := String.mk (List.replicate n '★')

/-- The shared star-tier computation: 3 stars up to `fast` seconds, 2 up to
`mid` seconds, otherwise 1. `elapsed` is in seconds. -/
def starsFor (fast mid elapsed : ℚ) : Nat :=
  if elapsed ≤ fast then 3 else if elapsed ≤ mid then 2 else 1

/-! ### chords.js : the unordered-set (chord) matcher -/

/-- The mutable state of one chord-recognition round: the module-level
`userPitchClasses`, the status display, whether the module-level `detector`
is still non-null (equivalently: the capture chain still runs), the
`addStars` counter, and whether the handler raised a `TypeError` by calling
`detector.stop()` on a null `detector`. -/
structure ChordState where
  userPitchClasses : List String
  status : Verdict
  message : String
  detectorOn : Bool
  starsAwarded : Nat
  crashed : Bool
deriving DecidableEq, Repr

/-- Chord round state right after `startRecording` reset it. -/
def chordInit : ChordState := ⟨[], .collecting, "Nasłuchiwanie...", true, 0, false⟩

/-- The `onFrequency` handler of chords.js `startRecording` (lines 87-129),
one event at a time. Note the source has no `else` between the `allMatch`
branch and the too-many-notes branch: on an event where both conditions
hold, the success branch runs first (status, stars, `detector.stop()`,
`detector = null`) and then the too-many branch overwrites the status and
calls `detector.stop()` on the now-null `detector`, raising a `TypeError`
(swallowed by the `try`/`catch` around `onFrequency` in noteDetector.js). -/
def chordOnFrequency (expected : List String) (recordStart : ℚ)
    (st : ChordState) (ev : NoteEvent) : ChordState :=
  if st.detectorOn = false then st
  else
    match ev.pc with
    | none => st
    | some pitchClass =>
        if st.userPitchClasses.contains pitchClass then st
        else
          let ups := st.userPitchClasses ++ [pitchClass]
          let allMatch := expected.all (fun pc => ups.contains pc)
          let st1 : ChordState :=
            if allMatch then
              let stars := starsFor 5 10 ((ev.now - recordStart) / 1000)
              { st with
                userPitchClasses := ups, status := .success,
                message := "Brawo! Zagrałeś poprawny akord. " ++ starRepeat stars,
                starsAwarded := st.starsAwarded + stars, detectorOn := false }
            else { st with userPitchClasses := ups }
          if ups.length > expected.length then
            if st1.detectorOn then
              { st1 with
                status := .failure,
                message := "Zagrałeś za dużo nut. Spróbuj ponownie.",
                detectorOn := false }
            else
              { st1 with
                status := .failure,
                message := "Zagrałeś za dużo nut. Spróbuj ponownie.",
                crashed := true }
          else st1

/-- A whole chord round: fold the handler over the delivered events. -/
def chordRun (expected : List String) (recordStart : ℚ) (st : ChordState)
    (evs : List NoteEvent) : ChordState :=
  evs.foldl (chordOnFrequency expected recordStart) st

/-! ### interval lesson (intervals module) : the two-note interval matcher -/

/-- The mutable state of one interval-recognition round. -/
structure IntervalState where
  userPitchClasses : List String
  status : Verdict
  message : String
  detectorOn : Bool
  starsAwarded : Nat
deriving DecidableEq, Repr

/-- Interval round state right after `startRecording` reset it. -/
def intervalInit : IntervalState := ⟨[], .collecting, "Nasłuchiwanie...", true, 0⟩

/-- `evaluateInterval` (intervals module, lines 469-492): with fewer than two
collected pitch classes it returns; otherwise it takes the first two, looks
up their `NOTE_NAMES` indices (returning on `-1`), forms
`((idx2 - idx1) % 12 + 12) % 12` and compares with the target semitone. -/
def evaluateInterval (currentIntervalSemitone : Int) (recordStart now : ℚ)
    (st : IntervalState) : IntervalState :=
  match st.userPitchClasses with
  | n1 :: n2 :: _ =>
      let idx1 := jsIndexOf NOTE_NAMES n1
      let idx2 := jsIndexOf NOTE_NAMES n2
      if idx1 = -1 ∨ idx2 = -1 then st
      else
        let diff := jsMod12 (idx2 - idx1)
        if diff = currentIntervalSemitone then
          let stars := starsFor 4 8 ((now - recordStart) / 1000)
          { st with
            status := .success,
            message := "Świetnie! Poprawnie rozpoznałeś interwał. " ++ starRepeat stars,
            starsAwarded := st.starsAwarded + stars }
        else
          { st with
            status := .failure,
            message := "Niestety, to " ++ intervalNameFromSemitone diff
              ++ ". Spróbuj ponownie." }
  | _ => st

/-- The `onFrequency` handler of the interval lesson's `startRecording`
(lines 434-457): record each not-yet-seen pitch class; at the second
distinct one, stop the detector and evaluate. -/
def intervalOnFrequency (currentIntervalSemitone : Int) (recordStart : ℚ)
    (st : IntervalState) (ev : NoteEvent) : IntervalState :=
  if st.detectorOn = false then st
  else
    match ev.pc with
    | none => st
    | some pc =>
        if st.userPitchClasses.contains pc then st
        else
          let st1 := { st with userPitchClasses := st.userPitchClasses ++ [pc] }
          if st1.userPitchClasses.length = 2 then
            evaluateInterval currentIntervalSemitone recordStart ev.now
              { st1 with detectorOn := false }
          else st1

/-- A whole interval round. -/
def intervalRun (currentIntervalSemitone : Int) (recordStart : ℚ)
    (st : IntervalState) (evs : List NoteEvent) : IntervalState :=
  evs.foldl (intervalOnFrequency currentIntervalSemitone recordStart) st

/-! ### memory.js : the ordered-sequence matcher -/

/-- memory.js `SEQ_LENGTH`. -/
def SEQ_LENGTH : Nat := 3

/-- The natural pitch classes memory.js admits
(`['C', 'D', 'E', 'F', 'G', 'A', 'B']`). -/
def NATURALS : List String := ["C", "D", "E", "F", "G", "A", "B"]

/-- The mutable state of one memory-sequence round. -/
structure MemoryState where
  userSequence : List String
  status : Verdict
  message : String
  detectorOn : Bool
  starsAwarded : Nat
deriving DecidableEq, Repr

/-- Memory round state right after `startRecording` reset it. -/
def memoryInit : MemoryState := ⟨[], .collecting, "Nasłuchiwanie...", true, 0⟩

/-- memory.js `evaluateSequence` (lines 80-110): length check, then the
index-by-index comparison loop, then star tiering against the
`SEQ_LENGTH`-based thresholds. -/
def evaluateSequence (expectedSequence : List String) (recordStart now : ℚ)
    (st : MemoryState) : MemoryState :=
  if st.userSequence.length ≠ expectedSequence.length then
    { st with
      status := .failure,
      message := "Liczba dźwięków się nie zgadza. Spróbuj ponownie." }
  else
    if (List.zip expectedSequence st.userSequence).all (fun q => q.1 == q.2) then
      let stars := starsFor (SEQ_LENGTH * 2) (SEQ_LENGTH * 4)
        ((now - recordStart) / 1000)
      { st with
        status := .success,
        message := "Doskonale! Powtórzyłeś sekwencję poprawnie. " ++ starRepeat stars,
        starsAwarded := st.starsAwarded + stars }
    else
      { st with
        status := .failure,
        message := "Niestety, sekwencja była inna. Spróbuj ponownie." }

/-- The `onFrequency` handler of memory.js `startRecording` (lines 123-138):
drop null and non-natural pitch classes, append while short of the target
length, and at the moment the lengths match stop the detector and evaluate. -/
def memoryOnFrequency (expectedSequence : List String) (recordStart : ℚ)
    (st : MemoryState) (ev : NoteEvent) : MemoryState :=
  if st.detectorOn = false then st
  else
    match ev.pc with
    | none => st
    | some pc =>
        if NATURALS.contains pc = false then st
        else if st.userSequence.length < expectedSequence.length then
          let st1 := { st with userSequence := st.userSequence ++ [pc] }
          if st1.userSequence.length = expectedSequence.length then
            evaluateSequence expectedSequence recordStart ev.now
              { st1 with detectorOn := false }
          else st1
        else st

/-- A whole memory round. -/
def memoryRun (expectedSequence : List String) (recordStart : ℚ)
    (st : MemoryState) (evs : List NoteEvent) : MemoryState :=
  evs.foldl (memoryOnFrequency expectedSequence recordStart) st

/-! ### reading.js : the single-note matcher -/

/-- `pc.replace(/#/, '')`: fold a sharp pitch class to its natural letter. -/
def natFold (pc : String) : String := pc.replace "#" ""

/-- The mutable state of one note-reading round. -/
structure ReadingState where
  status : Verdict
  message : String
  detectorOn : Bool
  starsAwarded : Nat
deriving DecidableEq, Repr

/-- Reading round state right after `startRecording` reset it. -/
def readingInit : ReadingState := ⟨.collecting, "Nasłuchiwanie...", true, 0⟩

/-- The `onFrequency` handler of reading.js `startRecording` (lines 160-184):
on the first non-null pitch class, compare natural-folded observed and
target pitch classes, set the verdict, and stop the detector.
`currentNotePc` is `parseNoteName(currentNote).pc`. -/
def readingOnFrequency (currentNotePc : String) (recordStart : ℚ)
    (st : ReadingState) (ev : NoteEvent) : ReadingState :=
  if st.detectorOn = false then st
  else
    match ev.pc with
    | none => st
    | some pc =>
        let naturalPc := natFold pc
        let expectedPc := natFold currentNotePc
        if naturalPc = expectedPc then
          let stars := starsFor 3 6 ((ev.now - recordStart) / 1000)
          { status := .success
            message := "Brawo! Poprawna nuta. " ++ starRepeat stars
            detectorOn := false
            starsAwarded := st.starsAwarded + stars }
        else
          { status := .failure
            message := "To był dźwięk " ++ naturalPc ++ ". Spróbuj ponownie."
            detectorOn := false
            starsAwarded := st.starsAwarded }

/-- A whole reading round. -/
def readingRun (currentNotePc : String) (recordStart : ℚ)
    (st : ReadingState) (evs : List NoteEvent) : ReadingState :=
  evs.foldl (readingOnFrequency currentNotePc recordStart) st

/-- The first of two above-threshold frames exactly 250 ms apart. -/
def boundaryFrame1 : AudioFrame := ⟨1000, 440, 9 / 10⟩

/-- The second of two above-threshold frames exactly 250 ms apart. -/
def boundaryFrame2 : AudioFrame := ⟨1250, 440, 9 / 10⟩

/-- The pitch classes the memory handler actually appends: the non-null,
natural ones. -/
def naturalPcs (evs : List NoteEvent) : List String :=
  (evs.filterMap NoteEvent.pc).filter (fun p => NATURALS.contains p)

/-- The first-occurrence collection the interval handler performs: append
unseen pitch classes until two are held, then stop looking. -/
def collectDistinct2 (acc : List String) : List String → List String
  | [] => acc
  | q :: qs =>
      if 2 ≤ acc.length then acc
      else if acc.contains q then collectDistinct2 acc qs
      else collectDistinct2 (acc ++ [q]) qs

/-! ## Arithmetic lemmas about the JavaScript `%` idiom -/

theorem tmod_twelve_lower (m : Int) : -12 < m.tmod 12 := by
  rcases m with n | n
  · have h := Int.tmod_nonneg (a := Int.ofNat n) 12 (Int.ofNat_nonneg n)
    omega
  · have h : (Int.negSucc n).tmod 12 = -(((n + 1) % 12 : Nat) : Int) := by
      simp [Int.tmod]
    have h2 : (n + 1) % 12 < 12 := Nat.mod_lt _ (by omega)
    omega

theorem jsMod12_eq_emod (m : Int) : jsMod12 m = m % 12 := by
  have hdecomp := Int.tmod_add_tdiv m 12
  have hlow := tmod_twelve_lower m
  have hhigh : m.tmod 12 < 12 := Int.tmod_lt_of_pos m (by omega)
  have houter : (m.tmod 12 + 12).tmod 12 = (m.tmod 12 + 12) % 12 :=
    Int.tmod_eq_emod (by omega) (by omega)
  unfold jsMod12 jsRem
  rw [houter]
  omega

theorem jsMod12_nonneg (m : Int) : 0 ≤ jsMod12 m := by
  rw [jsMod12_eq_emod]; omega

theorem jsMod12_lt (m : Int) : jsMod12 m < 12 := by
  rw [jsMod12_eq_emod]; omega

/-! ## C1 : the global debounce of the note-event stream -/

/-- C1 (amended): the note-event stream emits to its observer exactly when
the estimator's pitch is non-null, its clarity is at least
`clarityThreshold`, and *strictly more than* `debounceIntervalMs` (250 ms)
have elapsed since `lastDetectTime` (the time of the last emitted event,
initially 0); the debounce is global, not per pitch class: for every pair of
consecutive above-threshold estimator outputs of which the first is emitted,
outputs less than 250 ms apart yield exactly one emitted event and outputs
more than 250 ms apart yield two. -/
theorem noteDetector_global_debounce (clarityThreshold : ℚ) (st : DetectorState)
    (f1 f2 : AudioFrame) :
    ((onAudioProcess clarityThreshold st f1).2
        = if f1.pitch ≠ 0 ∧ clarityThreshold ≤ f1.clarity
              ∧ 250 < f1.now - st.lastDetectTime
          then some f1.pitch else none)
    ∧ (f1.pitch ≠ 0 → clarityThreshold ≤ f1.clarity →
        f2.pitch ≠ 0 → clarityThreshold ≤ f2.clarity →
        250 < f1.now - st.lastDetectTime →
        ((f2.now - f1.now < 250 →
            detectorEmits clarityThreshold st [f1, f2] = [f1.pitch])
          ∧ (250 < f2.now - f1.now →
            detectorEmits clarityThreshold st [f1, f2] = [f1.pitch, f2.pitch]))) := by
  constructor
  · by_cases h1 : f1.pitch ≠ 0 ∧ clarityThreshold ≤ f1.clarity
    · by_cases h2 : 250 < f1.now - st.lastDetectTime
      · simp [onAudioProcess, h1, h2, h1.1, h1.2]
      · simp [onAudioProcess, h1, h2]
    · have h3 : ¬(f1.pitch ≠ 0 ∧ clarityThreshold ≤ f1.clarity
          ∧ 250 < f1.now - st.lastDetectTime) := by tauto
      simp [onAudioProcess, h1, h3]
  · intro hp1 hc1 hp2 hc2 hfirst
    have hstep1 : onAudioProcess clarityThreshold st f1 = (⟨f1.now⟩, some f1.pitch) := by
      simp [onAudioProcess, hp1, hc1, hfirst]
    constructor
    · intro hclose
      have hstep2 : onAudioProcess clarityThreshold ⟨f1.now⟩ f2 = (⟨f1.now⟩, none) := by
        simp [onAudioProcess, hp2, hc2]
        linarith
      simp [detectorEmits, hstep1, hstep2]
    · intro hfar
      have hstep2 : onAudioProcess clarityThreshold ⟨f1.now⟩ f2 = (⟨f2.now⟩, some f2.pitch) := by
        simp [onAudioProcess, hp2, hc2, hfar]
      simp [detectorEmits, hstep1, hstep2]

/-- C1 counterexample: at the 250 ms boundary the spec's "at least
`debounceIntervalMs` elapsed" condition holds for the second frame (the
first emitted at time 1000), yet the code emits nothing for it: the stream
delivers one event, not two, because the source tests
`now - this.lastDetectTime > 250` strictly. -/
theorem noteDetector_debounce_boundary_counterexample :
    specEmitCondition (85 / 100) 1000 boundaryFrame2
    ∧ (onAudioProcess (85 / 100) ⟨1000⟩ boundaryFrame2).2 = none
    ∧ detectorEmits (85 / 100) detectorInit [boundaryFrame1, boundaryFrame2] = [440] := by
  refine ⟨⟨?_, ?_, ?_⟩, ?_, ?_⟩ <;>
    norm_num [specEmitCondition, onAudioProcess, detectorEmits, detectorInit,
      boundaryFrame1, boundaryFrame2]

/-! ## C2 : microphone failure handling -/

/-- C2 (amended): when microphone access cannot be obtained, `start()`
catches the rejection, shows an alert and returns normally — no
`AudioUnavailableError` reaches the caller — while no audio processing
begins, so every matcher that was waiting on the stream receives no event
and remains in the `collecting` state with no spurious verdict. -/
theorem start_micFailure_behavior :
    (noteDetectorStart false).errorToCaller = none
    ∧ (noteDetectorStart false).alertShown = true
    ∧ (noteDetectorStart false).listening = false
    ∧ (∀ (expected : List String) (recordStart : ℚ),
        chordRun expected recordStart chordInit [] = chordInit)
    ∧ chordInit.status = Verdict.collecting
    ∧ (∀ (t : Int) (recordStart : ℚ),
        intervalRun t recordStart intervalInit [] = intervalInit)
    ∧ intervalInit.status = Verdict.collecting
    ∧ (∀ (expected : List String) (recordStart : ℚ),
        memoryRun expected recordStart memoryInit [] = memoryInit)
    ∧ memoryInit.status = Verdict.collecting
    ∧ (∀ (pc : String) (recordStart : ℚ),
        readingRun pc recordStart readingInit [] = readingInit)
    ∧ readingInit.status = Verdict.collecting :=
  ⟨rfl, rfl, rfl, fun _ _ => rfl, rfl, fun _ _ => rfl, rfl, fun _ _ => rfl, rfl,
    fun _ _ => rfl, rfl⟩

/-- C2 counterexample: with the microphone unavailable, `start()` does not
produce the `AudioUnavailableError` the spec requires — the caller sees no
error at all (the code catches the rejection, alerts the user and
returns). -/
theorem start_micFailure_counterexample :
    noteDetectorStart false ≠ specStart false
    ∧ (noteDetectorStart false).errorToCaller = none
    ∧ (specStart false).errorToCaller = some AudioError.audioUnavailable := by
  refine ⟨?_, ?_, ?_⟩ <;> decide

/-! ## C3 : the unordered-set (chord) matcher -/

/-- C3 (the code's actual behaviour at the spec-violating input): with
target `C dur = [C, E, G]` and detected events `C, E, D, G`, the fourth
event makes the observed set a superset of the target, so by the claim the
round must terminate in `success`; the code instead runs the success branch
(awarding 3 stars and stopping the detector) *and then* the too-many-notes
branch, which overwrites the verdict with `failure` and calls
`detector.stop()` on the already-nulled detector — a `TypeError`, swallowed
by the `try`/`catch` in noteDetector.js. Success and failure are therefore
not mutually exclusive in the code. -/
theorem chordMatcher_overlap_bug :
    chordRun ["C", "E", "G"] 0 chordInit
        [⟨100, some "C"⟩, ⟨400, some "E"⟩, ⟨700, some "D"⟩, ⟨1000, some "G"⟩]
      = ⟨["C", "E", "D", "G"], Verdict.failure,
          "Zagrałeś za dużo nut. Spróbuj ponownie.", false, 3, true⟩
    ∧ (["C", "E", "G"].all
        (fun pc => (["C", "E", "D", "G"] : List String).contains pc)) = true := by
  refine ⟨?_, ?_⟩
  · norm_num [chordRun, chordOnFrequency, chordInit, starsFor, starRepeat]
    decide
  · decide

/-! ## C6 : the single-note matcher -/

theorem readingOnFrequency_off (currentNotePc : String) (recordStart : ℚ)
    (st : ReadingState) (ev : NoteEvent) (h : st.detectorOn = false) :
    readingOnFrequency currentNotePc recordStart st ev = st := by
  simp [readingOnFrequency, h]

theorem readingRun_off (currentNotePc : String) (recordStart : ℚ)
    (st : ReadingState) (evs : List NoteEvent) (h : st.detectorOn = false) :
    readingRun currentNotePc recordStart st evs = st := by
  induction evs with
  | nil => rfl
  | cons e evs ih =>
      rw [readingRun, List.foldl_cons,
        readingOnFrequency_off currentNotePc recordStart st e h]
      exact ih

/-- C6: the single-note matcher is single-shot: a null pitch class consumes
nothing; the first event carrying a pitch class is compared to the target
under natural folding (`replace('#', '')`) and immediately yields the
success/failure verdict; any events fed after that first one leave the state
— in particular the verdict — unchanged. -/
theorem singleNoteMatcher_single_shot (currentNotePc : String)
    (recordStart now : ℚ) (p : String) (rest evs : List NoteEvent) :
    readingRun currentNotePc recordStart readingInit (⟨now, some p⟩ :: rest)
      = readingRun currentNotePc recordStart readingInit [⟨now, some p⟩]
    ∧ ((readingRun currentNotePc recordStart readingInit [⟨now, some p⟩]).status
        = if natFold p = natFold currentNotePc then Verdict.success else Verdict.failure)
    ∧ readingRun currentNotePc recordStart readingInit (⟨now, none⟩ :: evs)
      = readingRun currentNotePc recordStart readingInit evs := by
  have hstep : ∀ ev : NoteEvent, ev.pc = some p →
      (readingOnFrequency currentNotePc recordStart readingInit ev).detectorOn = false := by
    intro ev hev
    by_cases h : natFold p = natFold currentNotePc <;>
      simp [readingOnFrequency, readingInit, hev, h]
  refine ⟨?_, ?_, ?_⟩
  · rw [readingRun, List.foldl_cons]
    rw [readingRun, List.foldl_cons, List.foldl_nil]
    exact readingRun_off currentNotePc recordStart _ rest (hstep ⟨now, some p⟩ rfl)
  · by_cases h : natFold p = natFold currentNotePc <;>
      simp [readingRun, readingOnFrequency, readingInit, h]
  · rw [readingRun, List.foldl_cons]
    rfl

/-! ## C5 and C9 : the ordered-sequence matcher -/

theorem memoryRun_cons (expected : List String) (recordStart : ℚ)
    (st : MemoryState) (e : NoteEvent) (evs : List NoteEvent) :
    memoryRun expected recordStart st (e :: evs)
      = memoryRun expected recordStart (memoryOnFrequency expected recordStart st e) evs :=
  rfl

theorem memoryOnFrequency_off (expected : List String) (recordStart : ℚ)
    (st : MemoryState) (ev : NoteEvent) (h : st.detectorOn = false) :
    memoryOnFrequency expected recordStart st ev = st := by
  simp [memoryOnFrequency, h]

theorem memoryRun_off (expected : List String) (recordStart : ℚ)
    (st : MemoryState) (evs : List NoteEvent) (h : st.detectorOn = false) :
    memoryRun expected recordStart st evs = st := by
  induction evs with
  | nil => rfl
  | cons e evs ih =>
      rw [memoryRun, List.foldl_cons,
        memoryOnFrequency_off expected recordStart st e h]
      exact ih

theorem evaluateSequence_userSequence (expected : List String)
    (recordStart now : ℚ) (st : MemoryState) :
    (evaluateSequence expected recordStart now st).userSequence = st.userSequence := by
  unfold evaluateSequence
  split_ifs <;> rfl

theorem evaluateSequence_detectorOn (expected : List String)
    (recordStart now : ℚ) (st : MemoryState) :
    (evaluateSequence expected recordStart now st).detectorOn = st.detectorOn := by
  unfold evaluateSequence
  split_ifs <;> rfl

theorem evaluateSequence_status (expected : List String)
    (recordStart now : ℚ) (st : MemoryState)
    (hlen : st.userSequence.length = expected.length) :
    (evaluateSequence expected recordStart now st).status
      = (if ((List.zip expected st.userSequence).all fun q => q.1 == q.2) = true
          then Verdict.success else Verdict.failure) := by
  unfold evaluateSequence
  rw [if_neg (by omega)]
  split_ifs <;> simp_all

theorem naturalPcs_cons_none (now : ℚ) (evs : List NoteEvent) :
    naturalPcs (⟨now, none⟩ :: evs) = naturalPcs evs := by
  simp [naturalPcs]

theorem naturalPcs_cons_natural (now : ℚ) (p : String) (evs : List NoteEvent)
    (h : p ∈ NATURALS) :
    naturalPcs (⟨now, some p⟩ :: evs) = p :: naturalPcs evs := by
  simp [naturalPcs, h]

theorem naturalPcs_cons_other (now : ℚ) (p : String) (evs : List NoteEvent)
    (h : p ∉ NATURALS) :
    naturalPcs (⟨now, some p⟩ :: evs) = naturalPcs evs := by
  simp [naturalPcs, h]

theorem memoryRun_characterize (expected : List String) (recordStart : ℚ)
    (evs : List NoteEvent) (acc : List String) (msg : String) (stars : Nat)
    (hacc : acc.length < expected.length) :
    ((memoryRun expected recordStart ⟨acc, Verdict.collecting, msg, true, stars⟩ evs).userSequence
        = (acc ++ naturalPcs evs).take expected.length)
    ∧ ((memoryRun expected recordStart ⟨acc, Verdict.collecting, msg, true, stars⟩ evs).userSequence.length
          < expected.length →
        memoryRun expected recordStart ⟨acc, Verdict.collecting, msg, true, stars⟩ evs
          = ⟨(memoryRun expected recordStart ⟨acc, Verdict.collecting, msg, true, stars⟩ evs).userSequence,
              Verdict.collecting, msg, true, stars⟩)
    ∧ ((memoryRun expected recordStart ⟨acc, Verdict.collecting, msg, true, stars⟩ evs).userSequence.length
          = expected.length →
        (memoryRun expected recordStart ⟨acc, Verdict.collecting, msg, true, stars⟩ evs).status
          = (if ((List.zip expected
                (memoryRun expected recordStart ⟨acc, Verdict.collecting, msg, true, stars⟩ evs).userSequence).all
                  fun q => q.1 == q.2) = true
              then Verdict.success else Verdict.failure)) := by
  induction evs generalizing acc with
  | nil =>
      refine ⟨?_, ?_, ?_⟩
      · simp [memoryRun, naturalPcs, List.take_of_length_le (Nat.le_of_lt hacc)]
      · intro _
        rfl
      · intro hlen
        simp [memoryRun] at hlen
        omega
  | cons e evs ih =>
      rcases e with ⟨now, pcOpt⟩
      rcases pcOpt with _ | p
      · have hstep :
            memoryOnFrequency expected recordStart ⟨acc, Verdict.collecting, msg, true, stars⟩ ⟨now, none⟩
              = ⟨acc, Verdict.collecting, msg, true, stars⟩ := by
          simp [memoryOnFrequency]
        rw [memoryRun_cons, hstep, naturalPcs_cons_none]
        exact ih acc hacc
      · by_cases hnat : NATURALS.contains p = true
        · have hmem : p ∈ NATURALS := by simpa using hnat
          have hlt : acc.length < expected.length := hacc
          by_cases hfull : acc.length + 1 = expected.length
          · have hstep :
                memoryOnFrequency expected recordStart ⟨acc, Verdict.collecting, msg, true, stars⟩ ⟨now, some p⟩
                  = evaluateSequence expected recordStart now
                      ⟨acc ++ [p], Verdict.collecting, msg, false, stars⟩ := by
              simp [memoryOnFrequency, hmem, hlt, hfull]
            rw [memoryRun_cons, hstep]
            have hoff := memoryRun_off expected recordStart
              (evaluateSequence expected recordStart now
                ⟨acc ++ [p], Verdict.collecting, msg, false, stars⟩) evs
              (by rw [evaluateSequence_detectorOn])
            rw [hoff]
            have huser := evaluateSequence_userSequence expected recordStart now
              ⟨acc ++ [p], Verdict.collecting, msg, false, stars⟩
            refine ⟨?_, ?_, ?_⟩
            · rw [huser, naturalPcs_cons_natural now p evs hmem]
              show acc ++ [p] = _
              have hlen2 : (acc ++ [p]).length = expected.length := by
                simp
                omega
              have hsplit : acc ++ p :: naturalPcs evs = (acc ++ [p]) ++ naturalPcs evs := by
                simp
              rw [hsplit, ← hlen2]
              exact (List.take_left _ _).symm
            · intro hlen
              rw [huser] at hlen
              simp at hlen
              omega
            · intro hlen
              rw [huser]
              exact evaluateSequence_status expected recordStart now _
                (by simpa using hfull)
          · have hstep :
                memoryOnFrequency expected recordStart ⟨acc, Verdict.collecting, msg, true, stars⟩ ⟨now, some p⟩
                  = ⟨acc ++ [p], Verdict.collecting, msg, true, stars⟩ := by
              simp [memoryOnFrequency, hmem, hlt, hfull]
            rw [memoryRun_cons, hstep]
            have hacc2 : (acc ++ [p]).length < expected.length := by
              simp
              omega
            rw [naturalPcs_cons_natural now p evs hmem]
            obtain ⟨ih1, ih2, ih3⟩ := ih (acc ++ [p]) hacc2
            refine ⟨?_, ih2, ih3⟩
            rw [ih1]
            simp
        · have hmem : p ∉ NATURALS := by simpa using hnat
          have hstep :
              memoryOnFrequency expected recordStart ⟨acc, Verdict.collecting, msg, true, stars⟩ ⟨now, some p⟩
                = ⟨acc, Verdict.collecting, msg, true, stars⟩ := by
            simp [memoryOnFrequency, hmem]
          rw [memoryRun_cons, hstep, naturalPcs_cons_other now p evs hmem]
          exact ih acc hacc

theorem zip_all_beq_iff_eq (xs : List String) :
    ∀ ys : List String, xs.length = ys.length →
      ((((List.zip xs ys).all fun q => q.1 == q.2) = true) ↔ ys = xs) := by
  induction xs with
  | nil =>
      intro ys hlen
      rcases ys with _ | ⟨y, ys⟩
      · simp
      · simp at hlen
  | cons x xs ih =>
      intro ys hlen
      rcases ys with _ | ⟨y, ys⟩
      · simp at hlen
      · simp only [List.zip_cons_cons, List.all_cons, Bool.and_eq_true, beq_iff_eq,
          List.cons.injEq]
        rw [ih ys (by simpa using hlen)]
        constructor
        · rintro ⟨h1, h2⟩
          exact ⟨h1.symm, h2⟩
        · rintro ⟨h1, h2⟩
          exact ⟨h1.symm, h2⟩

/-- C5: with a nonempty target of N pitch classes, the ordered-sequence
matcher appends the admitted events one at a time (its observed list is
always the first N admitted pitch classes), produces no verdict while fewer
than N events have been collected — it never fails early on a wrong note —
and at the moment the N-th event is collected it terminates with `success`
iff the observed list equals the target at every position, `failure`
otherwise. -/
theorem orderedSequenceMatcher_spec (expected : List String) (recordStart : ℚ)
    (evs : List NoteEvent) (hne : expected ≠ []) :
    ((memoryRun expected recordStart memoryInit evs).userSequence
        = (naturalPcs evs).take expected.length)
    ∧ ((memoryRun expected recordStart memoryInit evs).userSequence.length
          < expected.length →
        (memoryRun expected recordStart memoryInit evs).status = Verdict.collecting)
    ∧ ((memoryRun expected recordStart memoryInit evs).userSequence.length
          = expected.length →
        ((memoryRun expected recordStart memoryInit evs).status
          = if (memoryRun expected recordStart memoryInit evs).userSequence = expected
            then Verdict.success else Verdict.failure)) := by
  have hlen0 : ([] : List String).length < expected.length := by
    rcases expected with _ | ⟨e, es⟩
    · exact absurd rfl hne
    · simp
  obtain ⟨h1, h2, h3⟩ := memoryRun_characterize expected recordStart evs []
    "Nasłuchiwanie..." 0 hlen0
  rw [show memoryInit
      = (⟨[], Verdict.collecting, "Nasłuchiwanie...", true, 0⟩ : MemoryState) from rfl]
  refine ⟨by simpa using h1, ?_, ?_⟩
  · intro hlt
    rw [h2 hlt]
  · intro hlen
    rw [h3 hlen]
    rw [if_congr (zip_all_beq_iff_eq expected _ hlen.symm)] <;> rfl

/-- C5 witness: the spec theorem applied to the target `[C, E, G]` and the
observed events `C, G, E`: all three collected, wrong order, `failure`. -/
theorem orderedSequenceMatcher_spec_witness :
    (["C", "E", "G"] : List String) ≠ []
    ∧ (((memoryRun ["C", "E", "G"] 0 memoryInit
            [⟨1, some "C"⟩, ⟨2, some "G"⟩, ⟨3, some "E"⟩]).userSequence
          = (naturalPcs [⟨1, some "C"⟩, ⟨2, some "G"⟩, ⟨3, some "E"⟩]).take
              (["C", "E", "G"] : List String).length)
        ∧ (((memoryRun ["C", "E", "G"] 0 memoryInit
              [⟨1, some "C"⟩, ⟨2, some "G"⟩, ⟨3, some "E"⟩]).userSequence.length
              < (["C", "E", "G"] : List String).length →
            (memoryRun ["C", "E", "G"] 0 memoryInit
              [⟨1, some "C"⟩, ⟨2, some "G"⟩, ⟨3, some "E"⟩]).status = Verdict.collecting))
        ∧ ((memoryRun ["C", "E", "G"] 0 memoryInit
              [⟨1, some "C"⟩, ⟨2, some "G"⟩, ⟨3, some "E"⟩]).userSequence.length
              = (["C", "E", "G"] : List String).length →
            ((memoryRun ["C", "E", "G"] 0 memoryInit
                [⟨1, some "C"⟩, ⟨2, some "G"⟩, ⟨3, some "E"⟩]).status
              = if (memoryRun ["C", "E", "G"] 0 memoryInit
                    [⟨1, some "C"⟩, ⟨2, some "G"⟩, ⟨3, some "E"⟩]).userSequence
                    = ["C", "E", "G"]
                then Verdict.success else Verdict.failure))) :=
  ⟨by decide,
    orderedSequenceMatcher_spec ["C", "E", "G"] 0
      [⟨1, some "C"⟩, ⟨2, some "G"⟩, ⟨3, some "E"⟩] (by decide)⟩

theorem memoryOnFrequency_preserves_naturals (expected : List String)
    (recordStart : ℚ) (st : MemoryState) (ev : NoteEvent)
    (h : ∀ p ∈ st.userSequence, p ∈ NATURALS) :
    ∀ p ∈ (memoryOnFrequency expected recordStart st ev).userSequence, p ∈ NATURALS := by
  rcases ev with ⟨now, pcOpt⟩
  by_cases h1 : st.detectorOn = false
  · rw [memoryOnFrequency_off expected recordStart st _ h1]
    exact h
  · rcases pcOpt with _ | q
    · have hstep : memoryOnFrequency expected recordStart st ⟨now, none⟩ = st := by
        simp [memoryOnFrequency, h1]
      rw [hstep]
      exact h
    · by_cases h2 : q ∈ NATURALS
      · by_cases h3 : st.userSequence.length < expected.length
        · by_cases h4 : st.userSequence.length + 1 = expected.length
          · have hstep : memoryOnFrequency expected recordStart st ⟨now, some q⟩
                = evaluateSequence expected recordStart now
                    { st with userSequence := st.userSequence ++ [q], detectorOn := false } := by
              simp [memoryOnFrequency, h1, h2, h3, h4]
            rw [hstep, evaluateSequence_userSequence]
            intro p hp
            simp only [List.mem_append, List.mem_singleton] at hp
            rcases hp with hp | hp
            · exact h p hp
            · subst hp
              exact h2
          · have hstep : memoryOnFrequency expected recordStart st ⟨now, some q⟩
                = { st with userSequence := st.userSequence ++ [q] } := by
              simp [memoryOnFrequency, h1, h2, h3, h4]
            rw [hstep]
            intro p hp
            simp only [List.mem_append, List.mem_singleton] at hp
            rcases hp with hp | hp
            · exact h p hp
            · subst hp
              exact h2
        · have hstep : memoryOnFrequency expected recordStart st ⟨now, some q⟩ = st := by
            simp [memoryOnFrequency, h1, h2, h3]
          rw [hstep]
          exact h
      · have hstep : memoryOnFrequency expected recordStart st ⟨now, some q⟩ = st := by
          simp [memoryOnFrequency, h1, h2]
        rw [hstep]
        exact h

/-- C9: the ordered-sequence matcher silently discards every detected pitch
class outside the seven naturals: such an event leaves the whole round state
(including the observed list and its length) unchanged, and consequently the
observed list only ever contains natural pitch classes. -/
theorem orderedSequenceMatcher_discards_accidentals :
    (∀ (expected : List String) (recordStart : ℚ) (st : MemoryState)
        (now : ℚ) (p : String), NATURALS.contains p = false →
        memoryOnFrequency expected recordStart st ⟨now, some p⟩ = st)
    ∧ (∀ (expected : List String) (recordStart : ℚ) (evs : List NoteEvent),
        ∀ p ∈ (memoryRun expected recordStart memoryInit evs).userSequence,
          p ∈ NATURALS) := by
  constructor
  · intro expected recordStart st now p hp
    have hmem : p ∉ NATURALS := by simpa using hp
    by_cases h1 : st.detectorOn = false
    · exact memoryOnFrequency_off expected recordStart st _ h1
    · simp [memoryOnFrequency, h1, hmem]
  · intro expected recordStart evs
    have hgen : ∀ (evs : List NoteEvent) (st : MemoryState),
        (∀ p ∈ st.userSequence, p ∈ NATURALS) →
        ∀ p ∈ (memoryRun expected recordStart st evs).userSequence, p ∈ NATURALS := by
      intro evs
      induction evs with
      | nil => intro st h; exact h
      | cons e evs ih =>
          intro st h
          rw [memoryRun_cons]
          exact ih _ (memoryOnFrequency_preserves_naturals expected recordStart st e h)
    exact hgen evs memoryInit (by simp [memoryInit])

/-! ## C4 : the two-note interval matcher -/

theorem jsIndexOf_nonneg_of_mem (l : List String) (x : String) (h : x ∈ l) :
    0 ≤ jsIndexOf l x := by
  cases hm : List.indexOf? x l with
  | some i => simp [jsIndexOf, hm]
  | none =>
      rw [List.indexOf?_eq_none_iff] at hm
      have hc := hm x h
      simp at hc

theorem intervalRun_cons (t : Int) (recordStart : ℚ) (st : IntervalState)
    (e : NoteEvent) (evs : List NoteEvent) :
    intervalRun t recordStart st (e :: evs)
      = intervalRun t recordStart (intervalOnFrequency t recordStart st e) evs :=
  rfl

theorem intervalOnFrequency_off (t : Int) (recordStart : ℚ)
    (st : IntervalState) (ev : NoteEvent) (h : st.detectorOn = false) :
    intervalOnFrequency t recordStart st ev = st := by
  simp [intervalOnFrequency, h]

theorem intervalRun_off (t : Int) (recordStart : ℚ)
    (st : IntervalState) (evs : List NoteEvent) (h : st.detectorOn = false) :
    intervalRun t recordStart st evs = st := by
  induction evs with
  | nil => rfl
  | cons e evs ih =>
      rw [intervalRun_cons, intervalOnFrequency_off t recordStart st e h]
      exact ih

theorem evaluateInterval_userPitchClasses (t : Int) (recordStart now : ℚ)
    (st : IntervalState) :
    (evaluateInterval t recordStart now st).userPitchClasses = st.userPitchClasses := by
  obtain ⟨ups, status, msg, don, stars⟩ := st
  rcases ups with _ | ⟨n1, _ | ⟨n2, rest⟩⟩
  · rfl
  · rfl
  · simp only [evaluateInterval]
    split_ifs <;> rfl

theorem evaluateInterval_detectorOn (t : Int) (recordStart now : ℚ)
    (st : IntervalState) :
    (evaluateInterval t recordStart now st).detectorOn = st.detectorOn := by
  obtain ⟨ups, status, msg, don, stars⟩ := st
  rcases ups with _ | ⟨n1, _ | ⟨n2, rest⟩⟩
  · rfl
  · rfl
  · simp only [evaluateInterval]
    split_ifs <;> rfl

theorem collectDistinct2_of_full (acc : List String) (l : List String)
    (h : 2 ≤ acc.length) : collectDistinct2 acc l = acc := by
  induction l with
  | nil => rfl
  | cons q qs ih => simp [collectDistinct2, h]

theorem intervalRun_characterize (t : Int) (recordStart : ℚ)
    (evs : List NoteEvent) (acc : List String) (msg : String) (stars : Nat)
    (hacc : acc.length ≤ 1) :
    ((intervalRun t recordStart ⟨acc, Verdict.collecting, msg, true, stars⟩ evs).userPitchClasses
        = collectDistinct2 acc (evs.filterMap NoteEvent.pc))
    ∧ ((intervalRun t recordStart ⟨acc, Verdict.collecting, msg, true, stars⟩ evs).userPitchClasses.length ≤ 1 →
        intervalRun t recordStart ⟨acc, Verdict.collecting, msg, true, stars⟩ evs
          = ⟨(intervalRun t recordStart ⟨acc, Verdict.collecting, msg, true, stars⟩ evs).userPitchClasses,
              Verdict.collecting, msg, true, stars⟩)
    ∧ (∀ p1 p2,
        (intervalRun t recordStart ⟨acc, Verdict.collecting, msg, true, stars⟩ evs).userPitchClasses
            = [p1, p2] →
        ∃ now : ℚ,
          intervalRun t recordStart ⟨acc, Verdict.collecting, msg, true, stars⟩ evs
            = evaluateInterval t recordStart now
                ⟨[p1, p2], Verdict.collecting, msg, false, stars⟩) := by
  induction evs generalizing acc with
  | nil =>
      refine ⟨rfl, ?_, ?_⟩
      · intro _
        rfl
      · intro p1 p2 hp
        have : acc.length = 2 := by
          have := congrArg List.length hp
          simpa [intervalRun] using this
        omega
  | cons e evs ih =>
      rcases e with ⟨now, pcOpt⟩
      rcases pcOpt with _ | q
      · have hstep : intervalOnFrequency t recordStart
            ⟨acc, Verdict.collecting, msg, true, stars⟩ ⟨now, none⟩
              = ⟨acc, Verdict.collecting, msg, true, stars⟩ := by
          simp [intervalOnFrequency]
        rw [intervalRun_cons, hstep]
        simpa using ih acc hacc
      · by_cases hseen : acc.contains q = true
        · have hseenMem : q ∈ acc := by simpa using hseen
          have hstep : intervalOnFrequency t recordStart
              ⟨acc, Verdict.collecting, msg, true, stars⟩ ⟨now, some q⟩
                = ⟨acc, Verdict.collecting, msg, true, stars⟩ := by
            simp [intervalOnFrequency, hseenMem]
          rw [intervalRun_cons, hstep]
          have hcoll : collectDistinct2 acc (q :: evs.filterMap NoteEvent.pc)
              = collectDistinct2 acc (evs.filterMap NoteEvent.pc) := by
            have h2 : ¬ 2 ≤ acc.length := by omega
            simp [collectDistinct2, h2, hseen, hseenMem]
          have hfm : List.filterMap NoteEvent.pc (⟨now, some q⟩ :: evs)
              = q :: List.filterMap NoteEvent.pc evs := by
            simp
          rw [hfm, hcoll]
          exact ih acc hacc
        · by_cases hone : acc.length = 1
          · rcases acc with _ | ⟨a, _ | ⟨b, rest⟩⟩
            · simp at hone
            · have hnotmem : q ∉ ([a] : List String) := by simpa using hseen
              have hne : ¬ q = a := by simpa using hnotmem
              have hstep : intervalOnFrequency t recordStart
                  ⟨[a], Verdict.collecting, msg, true, stars⟩ ⟨now, some q⟩
                    = evaluateInterval t recordStart now
                        ⟨[a, q], Verdict.collecting, msg, false, stars⟩ := by
                simp [intervalOnFrequency, hne]
              rw [intervalRun_cons, hstep]
              have hoff := intervalRun_off t recordStart
                (evaluateInterval t recordStart now
                  ⟨[a, q], Verdict.collecting, msg, false, stars⟩) evs
                (by rw [evaluateInterval_detectorOn])
              rw [hoff]
              have huser := evaluateInterval_userPitchClasses t recordStart now
                ⟨[a, q], Verdict.collecting, msg, false, stars⟩
              refine ⟨?_, ?_, ?_⟩
              · rw [huser]
                show [a, q] = _
                have hfm : List.filterMap NoteEvent.pc (⟨now, some q⟩ :: evs)
                    = q :: List.filterMap NoteEvent.pc evs := by
                  simp
                rw [hfm]
                have h2 : ¬ 2 ≤ ([a] : List String).length := by simp
                rw [collectDistinct2, if_neg (by simp), if_neg (by simpa using hseen)]
                exact (collectDistinct2_of_full [a, q] _ (by simp)).symm
              · intro hlen
                rw [huser] at hlen
                simp at hlen
              · intro p1 p2 hp
                rw [huser] at hp
                simp only [List.cons.injEq, and_true] at hp
                obtain ⟨hp1, hp2⟩ := hp
                subst hp1
                subst hp2
                exact ⟨now, rfl⟩
            · simp at hone
          · have hnil : acc = [] := by
              rcases acc with _ | ⟨a, rest⟩
              · rfl
              · simp at hacc
                simp [hacc] at hone
            subst hnil
            have hstep : intervalOnFrequency t recordStart
                ⟨[], Verdict.collecting, msg, true, stars⟩ ⟨now, some q⟩
                  = ⟨[q], Verdict.collecting, msg, true, stars⟩ := by
              simp [intervalOnFrequency]
            rw [intervalRun_cons, hstep]
            have hcoll : collectDistinct2 [] (q :: evs.filterMap NoteEvent.pc)
                = collectDistinct2 [q] (evs.filterMap NoteEvent.pc) := by
              simp [collectDistinct2]
            have hfm : List.filterMap NoteEvent.pc (⟨now, some q⟩ :: evs)
                = q :: List.filterMap NoteEvent.pc evs := by
              simp
            rw [hfm, hcoll]
            exact ih [q] (by simp)

/-- C4: the interval matcher collects the first two distinct observed pitch
classes (duplicates and null detections are ignored), stays `collecting`
before the second distinct one, and then compares the ascending pitch-class
distance `((idx2 - idx1) % 12 + 12) % 12` from first-observed to
second-observed with the target: `success` iff they are equal, and on
mismatch the `failure` message names the interval actually observed.
Concretely, with target 7 (kwinta czysta), observing C then G succeeds and
observing C then F fails with a message naming "kwarta czysta". -/
theorem intervalMatcher_spec (t : Int) (recordStart : ℚ) (evs : List NoteEvent) :
    ((intervalRun t recordStart intervalInit evs).userPitchClasses
        = collectDistinct2 [] (evs.filterMap NoteEvent.pc))
    ∧ ((intervalRun t recordStart intervalInit evs).userPitchClasses.length ≤ 1 →
        (intervalRun t recordStart intervalInit evs).status = Verdict.collecting)
    ∧ (∀ p1 p2,
        (intervalRun t recordStart intervalInit evs).userPitchClasses = [p1, p2] →
        p1 ∈ NOTE_NAMES → p2 ∈ NOTE_NAMES →
        (((intervalRun t recordStart intervalInit evs).status = Verdict.success
            ↔ jsMod12 (jsIndexOf NOTE_NAMES p2 - jsIndexOf NOTE_NAMES p1) = t)
          ∧ (jsMod12 (jsIndexOf NOTE_NAMES p2 - jsIndexOf NOTE_NAMES p1) ≠ t →
              (intervalRun t recordStart intervalInit evs).status = Verdict.failure
              ∧ (intervalRun t recordStart intervalInit evs).message
                  = "Niestety, to "
                    ++ intervalNameFromSemitone
                        (jsMod12 (jsIndexOf NOTE_NAMES p2 - jsIndexOf NOTE_NAMES p1))
                    ++ ". Spróbuj ponownie.")))
    ∧ (intervalRun 7 0 intervalInit [⟨100, some "C"⟩, ⟨300, some "G"⟩]).status
        = Verdict.success
    ∧ (intervalRun 7 0 intervalInit [⟨100, some "C"⟩, ⟨300, some "F"⟩]).status
        = Verdict.failure
    ∧ (intervalRun 7 0 intervalInit [⟨100, some "C"⟩, ⟨300, some "F"⟩]).message
        = "Niestety, to kwarta czysta. Spróbuj ponownie." := by
  obtain ⟨h1, h2, h3⟩ := intervalRun_characterize t recordStart evs []
    "Nasłuchiwanie..." 0 (by simp)
  rw [show intervalInit
      = (⟨[], Verdict.collecting, "Nasłuchiwanie...", true, 0⟩ : IntervalState) from rfl]
  refine ⟨by simpa using h1, ?_, ?_, ?_, ?_, ?_⟩
  · intro hlen
    rw [h2 hlen]
  · intro p1 p2 hp hm1 hm2
    obtain ⟨now, heq⟩ := h3 p1 p2 hp
    rw [heq]
    have hn1 := jsIndexOf_nonneg_of_mem NOTE_NAMES p1 hm1
    have hn2 := jsIndexOf_nonneg_of_mem NOTE_NAMES p2 hm2
    have hidx : ¬ (jsIndexOf NOTE_NAMES p1 = -1 ∨ jsIndexOf NOTE_NAMES p2 = -1) := by
      omega
    simp only [evaluateInterval]
    rw [if_neg hidx]
    by_cases hd : jsMod12 (jsIndexOf NOTE_NAMES p2 - jsIndexOf NOTE_NAMES p1) = t
    · rw [if_pos hd]
      refine ⟨?_, ?_⟩
      · simp [hd]
      · intro hcontra
        exact absurd hd hcontra
    · rw [if_neg hd]
      refine ⟨?_, ?_⟩
      · simp [hd]
      · intro _
        exact ⟨rfl, rfl⟩
  · norm_num [intervalRun, intervalOnFrequency, evaluateInterval, intervalInit,
      starsFor, starRepeat]
    decide
  · norm_num [intervalRun, intervalOnFrequency, evaluateInterval, intervalInit,
      starsFor, starRepeat]
    decide
  · norm_num [intervalRun, intervalOnFrequency, evaluateInterval, intervalInit,
      starsFor, starRepeat]
    decide

/-! ## C8 and C10 : parseNoteName -/

theorem parseOctaveChars_isSome (cs : List Char) :
    (parseOctaveChars cs).isSome = isOctaveChars cs := by
  cases hA : (cs.head? == some '-')
  · cases hB : (!cs.isEmpty && cs.all Char.isDigit) <;>
      simp [parseOctaveChars, isOctaveChars, hA, hB]
  · cases hB : (!cs.tail.isEmpty && cs.tail.all Char.isDigit) <;>
      simp [parseOctaveChars, isOctaveChars, hA, hB]

theorem isOctaveChars_accidental_head (a : Char) (tail : List Char)
    (h : a = '#' ∨ a = 'b') : isOctaveChars (a :: tail) = false := by
  have hsharp : Char.isDigit '#' = false := by decide
  have hflat : Char.isDigit 'b' = false := by decide
  rcases h with h | h <;> subst h <;> simp [isOctaveChars, hsharp, hflat]

theorem parseOctaveChars_head_ne_accidental (cs : List Char) (o : Int)
    (h : parseOctaveChars cs = some o) :
    ¬ cs.head? = some '#' ∧ ¬ cs.head? = some 'b' := by
  cases cs with
  | nil => simp [parseOctaveChars] at h
  | cons d ds =>
      constructor
      · intro hd
        simp only [List.head?_cons, Option.some.injEq] at hd
        subst hd
        have hdig : Char.isDigit '#' = false := by decide
        simp [parseOctaveChars, hdig] at h
      · intro hd
        simp only [List.head?_cons, Option.some.injEq] at hd
        subst hd
        have hdig : Char.isDigit 'b' = false := by decide
        simp [parseOctaveChars, hdig] at h

theorem parseNoteNameChars_isSome (cs : List Char) :
    (parseNoteNameChars cs).isSome = specNoteNameShape cs := by
  cases cs with
  | nil => rfl
  | cons c rest =>
      by_cases hc : isNoteLetter c = true
      · rcases rest with _ | ⟨a, tail⟩
        · simp [parseNoteNameChars, specNoteNameShape, hc, parseOctaveChars,
            isOctaveChars]
        · by_cases ha : a = '#'
          · subst ha
            simp [parseNoteNameChars, specNoteNameShape, hc,
              parseOctaveChars_isSome,
              isOctaveChars_accidental_head _ tail (Or.inl rfl)]
          · by_cases hb : a = 'b'
            · subst hb
              simp [parseNoteNameChars, specNoteNameShape, hc,
                parseOctaveChars_isSome,
                isOctaveChars_accidental_head _ tail (Or.inr rfl)]
            · simp [parseNoteNameChars, specNoteNameShape, hc,
                parseOctaveChars_isSome, ha, hb]
      · simp [parseNoteNameChars, specNoteNameShape, hc]

/-- C8: `parseNoteName` accepts exactly the strings whose trimmed characters
are a letter A-G (case-insensitive), an optional `#` or `b` accidental, and
a signed integer octave; a sharp appends `#` to the upper-cased letter, a
flat is normalized to the enharmonic sharp one semitone down in `NOTE_NAMES`
with wraparound, anything else is rejected; in particular `"Ab5"` and
`"G#5"` both parse to pitch class `G#` with octave 5. -/
theorem parseNoteName_spec :
    (∀ s : String, (parseNoteName s).isSome = specNoteNameShape (trimChars s.toList))
    ∧ (∀ (c : Char) (ds : List Char) (o : Int),
        isNoteLetter c = true → parseOctaveChars ds = some o →
          parseNoteNameChars (c :: '#' :: ds) = some ⟨String.mk [c.toUpper] ++ "#", o⟩
          ∧ parseNoteNameChars (c :: 'b' :: ds)
              = some ⟨flatToSharp (String.mk [c.toUpper]), o⟩
          ∧ parseNoteNameChars (c :: ds) = some ⟨String.mk [c.toUpper], o⟩)
    ∧ (flatToSharp "C" = "B" ∧ flatToSharp "D" = "C#" ∧ flatToSharp "E" = "D#"
        ∧ flatToSharp "F" = "E" ∧ flatToSharp "G" = "F#" ∧ flatToSharp "A" = "G#"
        ∧ flatToSharp "B" = "A#")
    ∧ parseNoteName "Ab5" = some ⟨"G#", 5⟩
    ∧ parseNoteName "G#5" = some ⟨"G#", 5⟩ := by
  refine ⟨?_, ?_, by decide, by decide, by decide⟩
  · intro s
    exact parseNoteNameChars_isSome (trimChars s.toList)
  · intro c ds o hc ho
    obtain ⟨hh1, hh2⟩ := parseOctaveChars_head_ne_accidental ds o ho
    refine ⟨?_, ?_, ?_⟩
    · simp [parseNoteNameChars, hc, ho]
    · simp [parseNoteNameChars, hc, ho]
    · simp [parseNoteNameChars, hc, ho, hh1, hh2]

/-- C10: normalizing the flat `Cb` wraps the pitch class around to `B` while
leaving the parsed octave unchanged: for any octave-shaped suffix denoting
the integer `o`, `parseNoteName` on `Cb<o>` returns pitch class `B` with
octave `o` (not `o - 1`); under the codec's MIDI mapping that note lies
eleven semitones above the `C` of the same octave. -/
theorem parseNoteName_flat_wraparound :
    (∀ (ds : List Char) (o : Int), parseOctaveChars ds = some o →
        parseNoteNameChars ('C' :: 'b' :: ds) = some ⟨"B", o⟩)
    ∧ (∀ o : Int, noteMidi "B" o = noteMidi "C" o + 11)
    ∧ parseNoteName "Cb4" = some ⟨"B", 4⟩ := by
  refine ⟨?_, ?_, by decide⟩
  · intro ds o ho
    have hc : isNoteLetter 'C' = true := by decide
    have hflat : flatToSharp "C" = "B" := by decide
    simp [parseNoteNameChars, hc, ho, hflat]
  · intro o
    have hB : jsIndexOf NOTE_NAMES "B" = 11 := by decide
    have hC : jsIndexOf NOTE_NAMES "C" = 0 := by decide
    unfold noteMidi
    omega

/-! ## C7 : the frequency / pitch-class codec round-trip -/

theorem freqToPitchClass_of_midi (m : Int) :
    freqToPitchClass (440 * (2 : ℝ) ^ (((m : ℝ) - 69) / 12))
      = NOTE_NAMES.get? (jsMod12 m).toNat := by
  have hpos : (0 : ℝ) < 440 * (2 : ℝ) ^ (((m : ℝ) - 69) / 12) := by positivity
  have hmidi : round (12 * Real.logb 2
      ((440 * (2 : ℝ) ^ (((m : ℝ) - 69) / 12)) / 440) + 69) = m := by
    rw [mul_div_cancel_left₀ _ (by norm_num : (440 : ℝ) ≠ 0)]
    rw [Real.logb_rpow (by norm_num) (by norm_num)]
    have harith : (12 : ℝ) * (((m : ℝ) - 69) / 12) + 69 = (m : ℝ) := by ring
    rw [harith, round_intCast]
  simp only [freqToPitchClass]
  rw [if_neg (not_le.mpr hpos), hmidi,
    if_neg (not_lt.mpr (jsMod12_nonneg m))]

/-- C7: the codec round-trips: for every canonical pitch class and every
integer octave, `freqToPitchClass (pitchClassToFreq pc octave)` returns `pc`
again, octave-independently; `freqToPitchClass` is `none` exactly on
non-positive frequencies, and on positive frequencies it is
`round(12*log2(freq/440) + 69) mod 12` mapped through `NOTE_NAMES`. -/
theorem pitchClassCodec_roundtrip :
    (∀ pc ∈ NOTE_NAMES, ∀ octave : Int,
        (pitchClassToFreq pc octave).map freqToPitchClass = some (some pc))
    ∧ (∀ freq : ℝ, freqToPitchClass freq = none ↔ freq ≤ 0)
    ∧ (∀ freq : ℝ,
        freqToPitchClass freq
          = if freq ≤ 0 then none
            else NOTE_NAMES.get?
              ((round (12 * Real.logb 2 (freq / 440) + 69) % 12).toNat)) := by
  refine ⟨?_, ?_, ?_⟩
  · intro pc hm oct
    have hnn : 0 ≤ jsIndexOf NOTE_NAMES pc := jsIndexOf_nonneg_of_mem NOTE_NAMES pc hm
    have hlt : jsIndexOf NOTE_NAMES pc < 12 := by fin_cases hm <;> decide
    have hget : NOTE_NAMES.get? (jsIndexOf NOTE_NAMES pc).toNat = some pc := by
      fin_cases hm <;> decide
    simp only [pitchClassToFreq]
    rw [if_neg (by omega)]
    rw [Option.map_some']
    rw [freqToPitchClass_of_midi (noteMidi pc oct)]
    have hmod : jsMod12 (noteMidi pc oct) = jsIndexOf NOTE_NAMES pc := by
      rw [jsMod12_eq_emod]
      unfold noteMidi
      omega
    rw [hmod, hget]
  · intro freq
    constructor
    · intro h
      by_contra hpos
      simp only [freqToPitchClass] at h
      rw [if_neg hpos, if_neg (not_lt.mpr (jsMod12_nonneg _))] at h
      rw [List.get?_eq_none] at h
      have hlt := jsMod12_lt (round (12 * Real.logb 2 (freq / 440) + 69))
      have hnn := jsMod12_nonneg (round (12 * Real.logb 2 (freq / 440) + 69))
      have hlen : (NOTE_NAMES : List String).length = 12 := by decide
      omega
    · intro h
      simp only [freqToPitchClass]
      rw [if_pos h]
  · intro freq
    by_cases h : freq ≤ 0
    · simp only [freqToPitchClass]
      rw [if_pos h, if_pos h]
    · simp only [freqToPitchClass]
      rw [if_neg h, if_neg h, if_neg (not_lt.mpr (jsMod12_nonneg _)), jsMod12_eq_emod]

end PianoTutor
